import Mathlib

/-!
Verification of the GoalPulse task persistence core (`src/task_manager.py`,
class `TaskManager`) against its specification.

The SQLite-backed store is shallowly embedded: the `tasks` table is a list of
`Task` rows kept in rowid order together with the next AUTOINCREMENT id, and
each Python method becomes a pure Lean function taking the store and an
explicit current-time string.  SQLite particulars that the code relies on are
modelled faithfully: an `UPDATE ... WHERE id = ?` reports a positive rowcount
whenever a row matched, even if the stored values did not change; `ORDER BY
priority DESC, due_date ASC` places NULL due dates first (SQLite sorts NULL
before any value under ASC); `INSERT` performs no validation, so empty titles
and out-of-range priorities are stored as given.
-/

namespace GoalPulse

/-- A row of the `tasks` table (schema in `TaskManager._init_database`).
`due_date` and `completed_at` are nullable columns. -/
structure Task where
  id : Nat
  title : String
  description : String
  due_date : Option String
  priority : Int
  status : String
  created_at : String
  completed_at : Option String
deriving Repr, DecidableEq

/-- The persistent state: rows in rowid order plus the AUTOINCREMENT counter
(which never reuses ids after a delete). -/
structure Store where
  tasks : List Task
  nextId : Nat
deriving Repr, DecidableEq

/-- A freshly initialised database: no rows, first id will be 1. -/
def Store.empty : Store := { tasks := [], nextId := 1 }

/-- `TaskManager.add_task`: inserts a new row with `status="pending"`,
`created_at=now`, `completed_at` NULL, and returns the new id
(`cursor.lastrowid`).  The code performs no validation of `title` or
`priority`. -/
def add_task (s : Store) (title description : String) (due_date : Option String)
    (priority : Int) (now : String) : Store × Nat :=
  let t : Task :=
    { id := s.nextId, title := title, description := description,
      due_date := due_date, priority := priority, status := "pending",
      created_at := now, completed_at := Option.none }
  ({ tasks := s.tasks ++ [t], nextId := s.nextId + 1 }, s.nextId)

/-- `TaskManager.get_task`: `SELECT * FROM tasks WHERE id = ?`, `None` if no
row matches. -/
def get_task (s : Store) (id : Nat) : Option Task :=
  s.tasks.find? (fun t => t.id == id)

/-- The `**kwargs` of `TaskManager.update_task`, already split by the
filter that keeps a key only when it lies in `allowed_fields`: one
optional value per allowed column (`due_date` may be explicitly set to NULL,
hence the nested option), plus the list of keys that fell outside
`allowed_fields` (their values are dropped by the filter, so only the names
matter). -/
structure Kwargs where
  title : Option String
  description : Option String
  due_date : Option (Option String)
  priority : Option Int
  status : Option String
  unknown : List String
deriving Repr, DecidableEq

/-- Kwargs with no keys at all. -/
def Kwargs.empty : Kwargs :=
  { title := Option.none, description := Option.none, due_date := Option.none,
    priority := Option.none, status := Option.none, unknown := [] }

/-- Whether the filtered dict `update_fields` is non-empty, i.e. at least one
allowed key was supplied. -/
def hasAllowedField (k : Kwargs) : Bool :=
  k.title.isSome || k.description.isSome || k.due_date.isSome ||
    k.priority.isSome || k.status.isSome

/-- Effect of the generated `UPDATE tasks SET ...` on one matching row: each
supplied column is overwritten, and because the code adds
`update_fields["completed_at"] = now` exactly when `status == "completed"`
was supplied, `completed_at` is overwritten in the same statement in that
case and left untouched otherwise. -/
def applyUpdate (k : Kwargs) (now : String) (t : Task) : Task :=
  { t with
    title := k.title.getD t.title
    description := k.description.getD t.description
    due_date := k.due_date.getD t.due_date
    priority := k.priority.getD t.priority
    status := k.status.getD t.status
    completed_at :=
      if k.status = some "completed" then some now else t.completed_at }

/-- `TaskManager.update_task`: returns `False` without touching the database
when no allowed key was supplied; otherwise runs one `UPDATE ... WHERE id = ?`
and returns `cursor.rowcount > 0`, i.e. whether a row with that id exists. -/
def update_task (s : Store) (id : Nat) (k : Kwargs) (now : String) :
    Store × Bool :=
  if hasAllowedField k then
    ({ s with
        tasks := s.tasks.map fun t =>
          if t.id == id then applyUpdate k now t else t },
      s.tasks.any fun t => t.id == id)
  else
    (s, false)

/-- `TaskManager.delete_task`: `DELETE FROM tasks WHERE id = ?`, returning
`cursor.rowcount > 0`. -/
def delete_task (s : Store) (id : Nat) : Store × Bool :=
  ({ s with tasks := s.tasks.filter fun t => t.id != id },
    s.tasks.any fun t => t.id == id)

/-- The fixed catalog `self.encouragements` loaded in
`TaskManager.__init__`. -/
def encouragements : List String :=
  ["太棒了！你今天的表现令人印象深刻！✨",
   "完成任务的感觉真好，对吧？继续保持！🚀",
   "你的坚持不懈正在创造奇迹！💪",
   "明日之星就是你！每一步都在靠近目标！✨",
   "今天又离目标近了一步！坚持就是胜利！🚀",
   "代码写得比咖啡因还提神！☕",
   "你的效率简直惊人！继续加油！💯",
   "每完成一个任务，你就离成功更近一步！🏆",
   "你的进步是有目共睹的，为你自豪！👏",
   "坚持的力量是无穷的，你做到了！🌟"]

/-- `TaskManager.complete_task`: delegates to
`update_task(task_id, status="completed")`; on success returns `True` with
`random.choice(self.encouragements)` (the draw is modelled by an arbitrary
index `choice`, reduced modulo the catalog size), on failure `(False, "")`. -/
def complete_task (s : Store) (id : Nat) (now : String) (choice : Nat) :
    Store × Bool × String :=
  let r := update_task s id { Kwargs.empty with status := some "completed" } now
  if r.2 then
    (r.1, true, encouragements.getD (choice % encouragements.length) "")
  else
    (r.1, false, "")

/-- `TaskManager.get_pending_tasks_count`:
`SELECT COUNT(*) FROM tasks WHERE status = "pending"` (the SQL uses
single quotes). -/
def get_pending_tasks_count (s : Store) : Nat :=
  (s.tasks.filter fun t => t.status == "pending").length

/-- SQLite comparison underlying `ORDER BY due_date ASC`: NULL sorts before
every value, and TEXT dates compare bytewise, which for ISO `YYYY-MM-DD`
strings is chronological. -/
def dueDateLE : Option String → Option String → Bool
  | Option.none, _ => true
  | some _, Option.none => false
  | some a, some b => decide (a ≤ b)

/-- The row order produced by `ORDER BY priority DESC, due_date ASC`. -/
def taskLE (a b : Task) : Bool :=
  if a.priority = b.priority then dueDateLE a.due_date b.due_date
  else decide (b.priority < a.priority)

/-- `TaskManager.get_today_tasks`:
`SELECT * FROM tasks WHERE status = pending ORDER BY priority DESC,
due_date ASC` — no filtering on the calendar date, only on status.  The sort
over the table scan (rowid order) is modelled by a stable merge sort. -/
def get_today_tasks (s : Store) : List Task :=
  (s.tasks.filter fun t => t.status == "pending").mergeSort taskLE

/-- All stores reachable from a fresh database through the `TaskManager`
operations. -/
inductive Reachable : Store → Prop where
  | init : Reachable Store.empty
  | add (s : Store) (title description : String) (due_date : Option String)
      (priority : Int) (now : String) : Reachable s →
      Reachable (add_task s title description due_date priority now).1
  | update (s : Store) (id : Nat) (k : Kwargs) (now : String) : Reachable s →
      Reachable (update_task s id k now).1
  | delete (s : Store) (id : Nat) : Reachable s →
      Reachable (delete_task s id).1
  | complete (s : Store) (id : Nat) (now : String) (choice : Nat) :
      Reachable s → Reachable (complete_task s id now choice).1

/-- Structural invariant maintained by the SQLite `INTEGER PRIMARY KEY
AUTOINCREMENT`: every stored id is below the counter, and ids are unique. -/
def Store.WF (s : Store) : Prop :=
  (∀ t ∈ s.tasks, t.id < s.nextId) ∧ (s.tasks.map Task.id).Nodup

end GoalPulse


namespace GoalPulse

theorem applyUpdate_id (k : Kwargs) (now : String) (t : Task) :
    (applyUpdate k now t).id = t.id := rfl

theorem find?_map_update (l : List Task) (i : Nat) (k : Kwargs)
    (now : String) :
    ((l.map fun t => if t.id == i then applyUpdate k now t else t).find?
        fun t => t.id == i) =
      (l.find? fun t => t.id == i).map (applyUpdate k now) := by
  rw [List.find?_map]
  have hp : ((fun t : Task => t.id == i) ∘ fun t =>
      if t.id == i then applyUpdate k now t else t) =
        fun t : Task => t.id == i := by
    funext t
    by_cases h : t.id == i
    · simp only [Function.comp_apply, if_pos h, applyUpdate_id]
    · simp only [Function.comp_apply, if_neg h]
  rw [hp]
  cases hf : l.find? fun t => t.id == i with
  | none => rfl
  | some t =>
    have hpt := List.find?_some hf
    simp only [Option.map]
    simp only at hpt
    rw [if_pos hpt]

theorem get_task_update (s : Store) (i : Nat) (k : Kwargs) (now : String)
    (h : hasAllowedField k = true) :
    get_task (update_task s i k now).1 i =
      (get_task s i).map (applyUpdate k now) := by
  simp only [get_task, update_task, h, if_true]
  exact find?_map_update s.tasks i k now

theorem update_task_of_absent (s : Store) (i : Nat) (k : Kwargs)
    (now : String) (h : ∀ t ∈ s.tasks, t.id ≠ i) :
    update_task s i k now = (s, false) := by
  by_cases hk : hasAllowedField k
  · have hmap : (s.tasks.map fun t =>
        if t.id == i then applyUpdate k now t else t) = s.tasks := by
      have hcong : ∀ t ∈ s.tasks,
          (if t.id == i then applyUpdate k now t else t) = t := by
        intro t ht
        rw [if_neg]
        simp only [beq_iff_eq]
        exact h t ht
      rw [List.map_congr_left hcong, List.map_id']
    have hany : (s.tasks.any fun t => t.id == i) = false := by
      rw [List.any_eq_false]
      intro t ht
      simp only [beq_iff_eq]
      exact h t ht
    simp only [update_task, hk, if_true, hmap, hany]
  · simp only [update_task, if_neg hk]

theorem complete_task_fst (s : Store) (i : Nat) (now : String) (c : Nat) :
    (complete_task s i now c).1 =
      (update_task s i { Kwargs.empty with status := some "completed" }
        now).1 := by
  cases hb :
      (update_task s i { Kwargs.empty with status := some "completed" }
        now).2 <;>
    simp [complete_task, hb]

theorem wf_update (s : Store) (i : Nat) (k : Kwargs) (now : String)
    (h : Store.WF s) : Store.WF (update_task s i k now).1 := by
  obtain ⟨hlt, hnd⟩ := h
  by_cases hk : hasAllowedField k
  · simp only [update_task, hk, if_true]
    constructor
    · intro t ht
      simp only [List.mem_map] at ht
      obtain ⟨a, ha, rfl⟩ := ht
      by_cases hid : a.id == i
      · rw [if_pos hid]
        exact hlt a ha
      · rw [if_neg hid]
        exact hlt a ha
    · have hmap : ((s.tasks.map fun t =>
            if t.id == i then applyUpdate k now t else t).map Task.id) =
          s.tasks.map Task.id := by
        rw [List.map_map]
        apply List.map_congr_left
        intro a ha
        by_cases hid : a.id == i
        · simp only [Function.comp_apply, if_pos hid, applyUpdate_id]
        · simp only [Function.comp_apply, if_neg hid]
      show ((s.tasks.map fun t =>
          if t.id == i then applyUpdate k now t else t).map Task.id).Nodup
      rw [hmap]
      exact hnd
  · simp only [update_task, if_neg hk]
    exact ⟨hlt, hnd⟩

theorem reachable_wf (s : Store) (h : Reachable s) : Store.WF s := by
  induction h with
  | init => exact ⟨by simp [Store.empty], by simp [Store.empty]⟩
  | add s title d dd p now _ ih =>
    obtain ⟨hlt, hnd⟩ := ih
    constructor
    · intro t ht
      simp only [add_task, List.mem_append, List.mem_singleton] at ht
      rcases ht with h1 | h1
      · exact Nat.lt_succ_of_lt (hlt t h1)
      · subst h1
        exact Nat.lt_succ_self _
    · simp only [add_task, List.map_append, List.map_cons, List.map_nil]
      rw [List.nodup_append]
      refine ⟨hnd, List.nodup_singleton _, ?_⟩
      intro a ha hb
      simp only [List.mem_singleton] at hb
      subst hb
      simp only [List.mem_map] at ha
      obtain ⟨t, ht, hta⟩ := ha
      exact absurd hta (Nat.ne_of_lt (hlt t ht))
  | update s i k now _ ih => exact wf_update s i k now ih
  | delete s i _ ih =>
    obtain ⟨hlt, hnd⟩ := ih
    constructor
    · intro t ht
      simp only [delete_task] at ht
      exact hlt t (List.mem_filter.mp ht).1
    · simp only [delete_task]
      exact hnd.sublist ((List.filter_sublist _).map Task.id)
  | complete s i now c _ ih =>
    rw [complete_task_fst]
    exact wf_update s i _ now ih

end GoalPulse

namespace GoalPulse

theorem update_preserves_completed (s : Store) (i : Nat) (k : Kwargs)
    (now : String)
    (ih : ∀ t ∈ s.tasks, t.status = "completed" →
      t.completed_at.isSome = true) :
    ∀ t ∈ (update_task s i k now).1.tasks, t.status = "completed" →
      t.completed_at.isSome = true := by
  by_cases hk : hasAllowedField k
  · intro t ht hc
    simp only [update_task, hk, if_true, List.mem_map] at ht
    obtain ⟨a, ha, rfl⟩ := ht
    by_cases hid : a.id == i
    · rw [if_pos hid] at hc ⊢
      by_cases hst : k.status = some "completed"
      · simp [applyUpdate, hst]
      · have hca : (applyUpdate k now a).completed_at = a.completed_at := by
          simp [applyUpdate, hst]
        have hsa : (applyUpdate k now a).status = k.status.getD a.status := rfl
        rw [hca]
        rw [hsa] at hc
        cases hks : k.status with
        | none =>
          rw [hks] at hc
          exact ih a ha hc
        | some v =>
          rw [hks] at hc
          simp only [Option.getD_some] at hc
          subst hc
          exact absurd hks hst
    · rw [if_neg hid] at hc ⊢
      exact ih a ha hc
  · simp only [update_task, if_neg hk]
    exact ih

theorem completed_inv (s : Store) (hs : Reachable s) :
    ∀ t ∈ s.tasks, t.status = "completed" → t.completed_at.isSome = true := by
  induction hs with
  | init => intro t ht; exact absurd ht (by simp [Store.empty])
  | add s title d dd p now _ ih =>
    intro t ht hc
    simp only [add_task, List.mem_append, List.mem_singleton] at ht
    rcases ht with h1 | h1
    · exact ih t h1 hc
    · subst h1
      have hpc : ("pending" : String) ≠ "completed" := by decide
      exact absurd hc hpc
  | update s i k now _ ih => exact update_preserves_completed s i k now ih
  | delete s i _ ih =>
    intro t ht hc
    simp only [delete_task] at ht
    exact ih t (List.mem_filter.mp ht).1 hc
  | complete s i now c _ ih =>
    rw [complete_task_fst]
    exact update_preserves_completed s i _ now ih

/-- C1 (amended): in every reachable store, a task with `status = "completed"`
has `completed_at` set.  (The converse direction of the claimed iff fails:
`update` can set status back to pending without clearing `completed_at`;
see the counterexample.) -/
theorem C1_completed_at_of_completed (s : Store) (t : Task) (hs : Reachable s)
    (ht : t ∈ s.tasks) (hc : t.status = "completed") :
    t.completed_at.isSome = true :=
  completed_inv s hs t ht hc

/-- C1 fails as stated: after create, complete, then
`update(status="pending")`, the task is pending yet still carries
`completed_at`, so the iff invariant is not preserved by that update. -/
theorem C1_counterexample :
    ∃ s : Store, Reachable s ∧ ∃ t ∈ s.tasks,
      t.status ≠ "completed" ∧ t.completed_at.isSome = true := by
  refine ⟨(update_task
      (complete_task (add_task Store.empty "a" "" Option.none 0 "t1").1 1
        "t2" 0).1 1
      { Kwargs.empty with status := some "pending" } "t3").1,
    Reachable.update _ _ _ _ (Reachable.complete _ _ _ _
      (Reachable.add _ _ _ _ _ _ Reachable.init)), ?_⟩
  exact ⟨{ id := 1, title := "a", description := "",
           due_date := Option.none, priority := 0, status := "pending",
           created_at := "t1", completed_at := some "t2" },
    by decide, by decide, by decide⟩

theorem C1_witness :
    Reachable (complete_task (add_task Store.empty "a" "" Option.none 0
      "t1").1 1 "t2" 0).1 ∧
    { id := 1, title := "a", description := "", due_date := Option.none,
      priority := 0, status := "completed", created_at := "t1",
      completed_at := some "t2" } ∈
      (complete_task (add_task Store.empty "a" "" Option.none 0 "t1").1 1
        "t2" 0).1.tasks ∧
    ({ id := 1, title := "a", description := "", due_date := Option.none,
       priority := 0, status := "completed", created_at := "t1",
       completed_at := some "t2" } : Task).completed_at.isSome = true := by
  have reach : Reachable (complete_task (add_task Store.empty "a" ""
      Option.none 0 "t1").1 1 "t2" 0).1 :=
    Reachable.complete _ _ _ _ (Reachable.add _ _ _ _ _ _ Reachable.init)
  have mem : ({ id := 1, title := "a", description := "",
                due_date := Option.none, priority := 0,
                status := "completed", created_at := "t1",
                completed_at := some "t2" } : Task) ∈
      (complete_task (add_task Store.empty "a" "" Option.none 0 "t1").1 1
        "t2" 0).1.tasks := by decide
  exact ⟨reach, mem, C1_completed_at_of_completed _ _ reach mem rfl⟩

/-- C2 fails as stated: `add_task` performs no validation, so
`create(title="")` persists a pending row and `count_pending` changes from 0
to 1. -/
theorem C2_counterexample :
    get_pending_tasks_count
        (add_task Store.empty "" "" Option.none 0 "t1").1 = 1 ∧
    get_task (add_task Store.empty "" "" Option.none 0 "t1").1 1 =
      some { id := 1, title := "", description := "",
             due_date := Option.none, priority := 0, status := "pending",
             created_at := "t1", completed_at := Option.none } := by
  exact ⟨by decide, by decide⟩

/-- C2 (amended): `create` with an empty title does not fail; it persists a
pending row with empty title, and `count_pending` grows by one. -/
theorem C2_empty_title_persists (s : Store) (d : String) (dd : Option String)
    (p : Int) (now : String) :
    (add_task s "" d dd p now).1.tasks =
      s.tasks ++ [{ id := s.nextId, title := "", description := d,
                    due_date := dd, priority := p, status := "pending",
                    created_at := now, completed_at := Option.none }] ∧
    get_pending_tasks_count (add_task s "" d dd p now).1 =
      get_pending_tasks_count s + 1 := by
  constructor
  · rfl
  · simp [get_pending_tasks_count, add_task, List.filter_append]

/-- C4 fails as stated: a reachable store can hold a task whose priority is
outside {0,1,2,3}, because neither operation rejects or clamps it. -/
theorem C4_counterexample :
    ∃ s : Store, Reachable s ∧ ∃ t ∈ s.tasks,
      ¬ (0 ≤ t.priority ∧ t.priority ≤ 3) := by
  refine ⟨(add_task Store.empty "a" "" Option.none 7 "t1").1,
    Reachable.add _ _ _ _ _ _ Reachable.init,
    { id := 1, title := "a", description := "", due_date := Option.none,
      priority := 7, status := "pending", created_at := "t1",
      completed_at := Option.none }, by decide, by decide⟩

/-- C4 (amended): neither create nor update validates priority; both store
any integer priority exactly as supplied (consistently, neither rejects nor
clamps), so out-of-range priorities reach the store. -/
theorem C4_no_priority_validation (s : Store) (t : Task) (i : Nat) (p : Int)
    (ti d now : String) (dd : Option String) (h : get_task s i = some t) :
    (add_task s ti d dd p now).1.tasks =
      s.tasks ++ [{ id := s.nextId, title := ti, description := d,
                    due_date := dd, priority := p, status := "pending",
                    created_at := now, completed_at := Option.none }] ∧
    get_task (update_task s i
        { Kwargs.empty with priority := some p } now).1 i =
      some { t with priority := p } := by
  constructor
  · rfl
  · rw [get_task_update s i { Kwargs.empty with priority := some p } now rfl,
      h]
    rfl

theorem C4_witness :
    get_task (add_task Store.empty "a" "" Option.none 0 "t1").1 1 =
      some { id := 1, title := "a", description := "",
             due_date := Option.none, priority := 0, status := "pending",
             created_at := "t1", completed_at := Option.none } ∧
    ((add_task (add_task Store.empty "a" "" Option.none 0 "t1").1 "b" ""
        Option.none 9 "t2").1.tasks =
      (add_task Store.empty "a" "" Option.none 0 "t1").1.tasks ++
        [{ id := 2, title := "b", description := "",
           due_date := Option.none, priority := 9, status := "pending",
           created_at := "t2", completed_at := Option.none }] ∧
    get_task (update_task (add_task Store.empty "a" "" Option.none 0 "t1").1 1
        { Kwargs.empty with priority := some 9 } "t2").1 1 =
      some { id := 1, title := "a", description := "",
             due_date := Option.none, priority := 9, status := "pending",
             created_at := "t1", completed_at := Option.none }) := by
  refine ⟨by decide, ?_⟩
  exact C4_no_priority_validation
    (add_task Store.empty "a" "" Option.none 0 "t1").1
    { id := 1, title := "a", description := "", due_date := Option.none,
      priority := 0, status := "pending", created_at := "t1",
      completed_at := Option.none }
    1 9 "b" "" "t2" Option.none (by decide)

end GoalPulse

namespace GoalPulse

theorem encouragement_getD_mem (n : Nat) :
    encouragements.getD (n % encouragements.length) "" ∈ encouragements := by
  have hlt : n % encouragements.length < encouragements.length :=
    Nat.mod_lt _ (by decide)
  rw [List.getD_eq_getElem?_getD, List.getElem?_eq_getElem hlt]
  exact List.getElem_mem hlt

theorem encouragements_nonempty_strings :
    ∀ x ∈ encouragements, x ≠ "" := by decide

/-- C9: `complete(id)` returns, on success, `true` with a message drawn from
the fixed non-empty catalog (hence never the empty string); on a missing id
it returns exactly `(false, "")`; and the random draw has no effect on the
resulting store. -/
theorem C9_complete_spec (s : Store) (i : Nat) (now : String) (c : Nat) :
    ((complete_task s i now c).2.1 = true →
      (complete_task s i now c).2.2 ∈ encouragements ∧
        (complete_task s i now c).2.2 ≠ "") ∧
    (get_task s i = Option.none → (complete_task s i now c).2 = (false, "")) ∧
    ∀ d : Nat, (complete_task s i now c).1 = (complete_task s i now d).1 := by
  refine ⟨?_, ?_, ?_⟩
  · intro hsucc
    cases hb : (update_task s i
        { Kwargs.empty with status := some "completed" } now).2 with
    | false => simp [complete_task, hb] at hsucc
    | true =>
      have hmsg : (complete_task s i now c).2.2 =
          encouragements.getD (c % encouragements.length) "" := by
        simp [complete_task, hb]
      rw [hmsg]
      exact ⟨encouragement_getD_mem c,
        encouragements_nonempty_strings _ (encouragement_getD_mem c)⟩
  · intro habs
    have habs2 : ∀ t ∈ s.tasks, t.id ≠ i := by
      rw [get_task, List.find?_eq_none] at habs
      intro t ht
      have := habs t ht
      simpa using this
    have hupd := update_task_of_absent s i
      { Kwargs.empty with status := some "completed" } now habs2
    have hb : (update_task s i
        { Kwargs.empty with status := some "completed" } now).2 = false := by
      rw [hupd]
    simp [complete_task, hb]
  · intro d
    rw [complete_task_fst, complete_task_fst]

theorem C9_witness :
    ((complete_task (add_task Store.empty "a" "" Option.none 0 "t1").1 1
        "t2" 3).2.2 ∈ encouragements ∧
      (complete_task (add_task Store.empty "a" "" Option.none 0 "t1").1 1
        "t2" 3).2.2 ≠ "") ∧
    (complete_task Store.empty 5 "t2" 0).2 = (false, "") := by
  refine ⟨(C9_complete_spec (add_task Store.empty "a" "" Option.none 0
      "t1").1 1 "t2" 3).1 (by decide),
    (C9_complete_spec Store.empty 5 "t2" 0).2.1 (by decide)⟩

/-- C10: an update whose field set contains no allowed key returns false
and performs no write, even when the task exists, so a false return does
not imply the id is absent. -/
theorem C10_update_no_allowed_keys (s : Store) (i : Nat) (k : Kwargs)
    (now : String) (h : hasAllowedField k = false) :
    update_task s i k now = (s, false) := by
  simp [update_task, h]

theorem C10_witness :
    hasAllowedField { Kwargs.empty with unknown := ["color"] } = false ∧
    update_task (add_task Store.empty "a" "" Option.none 0 "t1").1 1
        { Kwargs.empty with unknown := ["color"] } "t2" =
      ((add_task Store.empty "a" "" Option.none 0 "t1").1, false) ∧
    get_task (add_task Store.empty "a" "" Option.none 0 "t1").1 1 ≠
      Option.none := by
  refine ⟨by decide,
    C10_update_no_allowed_keys _ _ _ _ (by decide), by decide⟩

end GoalPulse

namespace GoalPulse

/-- C3 fails as stated: a second complete on an already-completed task
returns true (SQLite counts the matched row) and overwrites completed_at
with the new time, rather than returning `(false, "")` unchanged. -/
theorem C3_counterexample :
    (complete_task (complete_task (add_task Store.empty "a" "" Option.none 0
        "t1").1 1 "t2" 0).1 1 "t3" 0).2.1 = true ∧
    get_task (complete_task (complete_task (add_task Store.empty "a" ""
        Option.none 0 "t1").1 1 "t2" 0).1 1 "t3" 0).1 1 =
      some { id := 1, title := "a", description := "",
             due_date := Option.none, priority := 0, status := "completed",
             created_at := "t1", completed_at := some "t3" } := by
  exact ⟨by decide, by decide⟩

/-- C3 (amended): a second complete(id) on an already-completed task
succeeds again: it returns true (with a message) and overwrites
completed_at with the new current time, leaving all other fields
unchanged. -/
theorem C3_recomplete (s : Store) (i : Nat) (t : Task) (now : String)
    (c : Nat) (h : get_task s i = some t) (hc : t.status = "completed") :
    (complete_task s i now c).2.1 = true ∧
    get_task (complete_task s i now c).1 i =
      some { t with status := "completed", completed_at := some now } := by
  have hk : hasAllowedField
      { Kwargs.empty with status := some "completed" } = true := rfl
  have hfind : (s.tasks.find? fun x => x.id == i) = some t := h
  have hex : (s.tasks.any fun x => x.id == i) = true := by
    rw [List.any_eq_true]
    have hp := List.find?_some hfind
    have hm := List.mem_of_find?_eq_some hfind
    exact ⟨t, hm, hp⟩
  have hb : (update_task s i
      { Kwargs.empty with status := some "completed" } now).2 = true := by
    simp only [update_task, hk, if_true]
    exact hex
  constructor
  · simp [complete_task, hb]
  · rw [complete_task_fst, get_task_update s i _ now hk, h]
    rfl

theorem C3_witness :
    get_task (complete_task (add_task Store.empty "a" "" Option.none 0
        "t1").1 1 "t2" 0).1 1 =
      some { id := 1, title := "a", description := "",
             due_date := Option.none, priority := 0, status := "completed",
             created_at := "t1", completed_at := some "t2" } ∧
    ((complete_task (complete_task (add_task Store.empty "a" "" Option.none 0
        "t1").1 1 "t2" 0).1 1 "t3" 1).2.1 = true ∧
      get_task (complete_task (complete_task (add_task Store.empty "a" ""
          Option.none 0 "t1").1 1 "t2" 0).1 1 "t3" 1).1 1 =
        some { id := 1, title := "a", description := "",
               due_date := Option.none, priority := 0,
               status := "completed", created_at := "t1",
               completed_at := some "t3" }) := by
  refine ⟨by decide, ?_⟩
  exact C3_recomplete
    (complete_task (add_task Store.empty "a" "" Option.none 0 "t1").1 1
      "t2" 0).1 1
    { id := 1, title := "a", description := "", due_date := Option.none,
      priority := 0, status := "completed", created_at := "t1",
      completed_at := some "t2" }
    "t3" 1 (by decide) rfl

/-- C6: a valid create (non-empty title, in-range priority) immediately
followed by get on the returned id yields a pending task, with no
completed_at, echoing the supplied title, description, due_date and
priority exactly. -/
theorem C6_create_get_roundtrip (s : Store) (ti d now : String)
    (dd : Option String) (p : Int) (hs : Reachable s) (hti : ti ≠ "")
    (hp : 0 ≤ p ∧ p ≤ 3) :
    get_task (add_task s ti d dd p now).1 (add_task s ti d dd p now).2 =
      some { id := s.nextId, title := ti, description := d, due_date := dd,
             priority := p, status := "pending", created_at := now,
             completed_at := Option.none } := by
  obtain ⟨hlt, _⟩ := reachable_wf s hs
  have hnone : (s.tasks.find? fun t => t.id == s.nextId) = Option.none := by
    rw [List.find?_eq_none]
    intro t ht
    simp only [beq_iff_eq]
    exact Nat.ne_of_lt (hlt t ht)
  simp only [get_task, add_task]
  rw [List.find?_append, hnone, Option.none_or]
  simp

theorem C6_witness :
    Reachable Store.empty ∧ ("a" : String) ≠ "" ∧
    ((0 : Int) ≤ 2 ∧ (2 : Int) ≤ 3) ∧
    get_task (add_task Store.empty "a" "desc" (some "2025-06-01") 2 "t1").1
        (add_task Store.empty "a" "desc" (some "2025-06-01") 2 "t1").2 =
      some { id := 1, title := "a", description := "desc",
             due_date := some "2025-06-01", priority := 2,
             status := "pending", created_at := "t1",
             completed_at := Option.none } :=
  ⟨Reachable.init, by decide, by decide,
    C6_create_get_roundtrip Store.empty "a" "desc" "t1" (some "2025-06-01") 2
      Reachable.init (by decide) (by decide)⟩

/-- C7 fails as stated: on an existing task, an update whose field set
contains only unknown keys returns false, so "if the task exists the call
returns true" does not hold for every allowed-key-free field set. -/
theorem C7_counterexample :
    update_task (add_task Store.empty "b" "" Option.none 0 "t1").1 1
        { Kwargs.empty with unknown := ["owner"] } "t2" =
      ((add_task Store.empty "b" "" Option.none 0 "t1").1, false) ∧
    get_task (add_task Store.empty "b" "" Option.none 0 "t1").1 1 ≠
      Option.none := by
  exact ⟨by decide, by decide⟩

/-- C7 (amended): for update(id, fields): unknown keys are ignored; if no
task has the id the call returns false and changes nothing; if the task
exists and at least one allowed key is supplied the call returns true; and
when fields sets status to completed, the same write also sets
completed_at to now. -/
theorem C7_update_spec (s : Store) (i : Nat) (k : Kwargs) (now : String)
    (u : List String) (h : hasAllowedField k = true) :
    update_task s i { k with unknown := u } now = update_task s i k now ∧
    (get_task s i = Option.none → update_task s i k now = (s, false)) ∧
    ((get_task s i).isSome = true → (update_task s i k now).2 = true) ∧
    (k.status = some "completed" →
      ∀ t ∈ (update_task s i k now).1.tasks, t.id = i →
        t.status = "completed" ∧ t.completed_at = some now) := by
  refine ⟨rfl, ?_, ?_, ?_⟩
  · intro habs
    apply update_task_of_absent
    rw [get_task, List.find?_eq_none] at habs
    intro t ht
    have := habs t ht
    simpa using this
  · intro hsome
    rw [Option.isSome_iff_exists] at hsome
    obtain ⟨t, ht⟩ := hsome
    have hfind : (s.tasks.find? fun x => x.id == i) = some t := ht
    have hex : (s.tasks.any fun x => x.id == i) = true := by
      rw [List.any_eq_true]
      have hp := List.find?_some hfind
      have hm := List.mem_of_find?_eq_some hfind
      exact ⟨t, hm, hp⟩
    simp only [update_task, h, if_true]
    exact hex
  · intro hst t ht hti
    simp only [update_task, h, if_true, List.mem_map] at ht
    obtain ⟨a, ha, rfl⟩ := ht
    by_cases hid : a.id == i
    · rw [if_pos hid]
      constructor
      · show k.status.getD a.status = "completed"
        rw [hst]
        rfl
      · show (if k.status = some "completed" then some now
          else a.completed_at) = some now
        rw [if_pos hst]
    · rw [if_neg hid] at hti
      exact absurd hti (by simpa using hid)

theorem C7_witness :
    hasAllowedField { Kwargs.empty with status := some "completed" } = true ∧
    (update_task (add_task Store.empty "a" "" Option.none 0 "t1").1 1
        { Kwargs.empty with status := some "completed" } "t2").2 = true ∧
    update_task Store.empty 1
        { Kwargs.empty with status := some "completed" } "t2" =
      (Store.empty, false) := by
  refine ⟨rfl, ?_, ?_⟩
  · exact (C7_update_spec (add_task Store.empty "a" "" Option.none 0 "t1").1
      1 { Kwargs.empty with status := some "completed" } "t2" [] rfl).2.2.1
      (by decide)
  · exact (C7_update_spec Store.empty 1
      { Kwargs.empty with status := some "completed" } "t2" [] rfl).2.1
      (by decide)

end GoalPulse

namespace GoalPulse

theorem pending_count_split (l : List Task) (i : Nat) (t : Task)
    (hnd : (l.map Task.id).Nodup)
    (hfind : (l.find? fun x => x.id == i) = some t) :
    (l.filter fun x => x.status == "pending").length =
      ((l.filter fun x => x.id != i).filter
          fun x => x.status == "pending").length +
        (if t.status = "pending" then 1 else 0) := by
  induction l with
  | nil => simp at hfind
  | cons a l ih =>
    simp only [List.map_cons, List.nodup_cons] at hnd
    obtain ⟨hnin, hnd2⟩ := hnd
    by_cases hid : a.id == i
    · simp only [List.find?, hid] at hfind
      have hta : a = t := Option.some.inj hfind
      subst hta
      have hai : a.id = i := by simpa using hid
      have hfl : (l.filter fun x => x.id != i) = l := by
        rw [List.filter_eq_self]
        intro x hx
        have hxne : x.id ≠ i := by
          intro hxi
          apply hnin
          rw [List.mem_map]
          exact ⟨x, hx, by rw [hxi, hai]⟩
        simpa using hxne
      have hane : ¬ ((a.id != i) = true) := by simpa using hid
      rw [show ((a :: l).filter fun x => x.id != i) =
          (l.filter fun x => x.id != i) from by
        rw [List.filter_cons, if_neg hane]]
      rw [hfl, List.filter_cons]
      by_cases hpa : (a.status == "pending") = true
      · rw [if_pos hpa, if_pos (show a.status = "pending" from by
          simpa using hpa)]
        simp [List.length_cons]
      · rw [if_neg hpa, if_neg (show ¬ a.status = "pending" from by
          simpa using hpa)]
        omega
    · have hid2 : (a.id == i) = false := by simpa using hid
      simp only [List.find?, hid2] at hfind
      have hane : (a.id != i) = true := by simpa using hid
      have ihh := ih hnd2 hfind
      rw [show ((a :: l).filter fun x => x.id != i) =
          a :: (l.filter fun x => x.id != i) from by
        rw [List.filter_cons, if_pos hane]]
      rw [List.filter_cons, List.filter_cons]
      by_cases hpa : (a.status == "pending") = true
      · rw [if_pos hpa, if_pos hpa]
        simp only [List.length_cons]
        omega
      · rw [if_neg hpa, if_neg hpa]
        exact ihh

/-- C8: delete(id) returns true iff a task with that id existed; afterwards
get(id) is absent; count_pending drops by exactly one when the deleted
task was pending and is unchanged otherwise; and delete of a missing id
returns false leaving the store untouched. -/
theorem C8_delete_spec (s : Store) (i : Nat) (hs : Reachable s) :
    ((delete_task s i).2 = true ↔ (get_task s i).isSome = true) ∧
    get_task (delete_task s i).1 i = Option.none ∧
    (∀ t : Task, get_task s i = some t →
      get_pending_tasks_count s =
        get_pending_tasks_count (delete_task s i).1 +
          (if t.status = "pending" then 1 else 0)) ∧
    (get_task s i = Option.none → delete_task s i = (s, false)) := by
  obtain ⟨_, hnd⟩ := reachable_wf s hs
  refine ⟨?_, ?_, ?_, ?_⟩
  · show (s.tasks.any fun t => t.id == i) = true ↔ _
    rw [List.any_eq_true, get_task]
    exact Iff.symm List.find?_isSome
  · show ((s.tasks.filter fun t => t.id != i).find? fun t => t.id == i) =
      Option.none
    rw [List.find?_eq_none]
    intro x hx
    have hne : (x.id != i) = true := (List.mem_filter.mp hx).2
    simp only [bne_iff_ne] at hne
    simpa using hne
  · intro t ht
    exact pending_count_split s.tasks i t hnd ht
  · intro habs
    rw [get_task, List.find?_eq_none] at habs
    have hfe : (s.tasks.filter fun t => t.id != i) = s.tasks := by
      rw [List.filter_eq_self]
      intro x hx
      have := habs x hx
      simpa using this
    have hany : (s.tasks.any fun t => t.id == i) = false := by
      rw [List.any_eq_false]
      exact habs
    simp only [delete_task, hfe, hany]

theorem C8_witness :
    Reachable (add_task (add_task Store.empty "a" "" Option.none 0 "t1").1
      "b" "" Option.none 2 "t2").1 ∧
    ((delete_task (add_task (add_task Store.empty "a" "" Option.none 0
        "t1").1 "b" "" Option.none 2 "t2").1 1).2 = true ↔
      (get_task (add_task (add_task Store.empty "a" "" Option.none 0
        "t1").1 "b" "" Option.none 2 "t2").1 1).isSome = true) ∧
    get_task (delete_task (add_task (add_task Store.empty "a" "" Option.none
      0 "t1").1 "b" "" Option.none 2 "t2").1 1).1 1 = Option.none ∧
    get_pending_tasks_count (add_task (add_task Store.empty "a" ""
        Option.none 0 "t1").1 "b" "" Option.none 2 "t2").1 =
      get_pending_tasks_count (delete_task (add_task (add_task Store.empty
        "a" "" Option.none 0 "t1").1 "b" "" Option.none 2 "t2").1 1).1 +
        1 := by
  have hr : Reachable (add_task (add_task Store.empty "a" "" Option.none 0
      "t1").1 "b" "" Option.none 2 "t2").1 :=
    Reachable.add _ _ _ _ _ _ (Reachable.add _ _ _ _ _ _ Reachable.init)
  have hspec := C8_delete_spec (add_task (add_task Store.empty "a" ""
    Option.none 0 "t1").1 "b" "" Option.none 2 "t2").1 1 hr
  refine ⟨hr, hspec.1, hspec.2.1, ?_⟩
  have hcount := hspec.2.2.1
    ({ id := 1, title := "a", description := "", due_date := Option.none,
       priority := 0, status := "pending", created_at := "t1",
       completed_at := Option.none } : Task) (by decide)
  simpa using hcount

end GoalPulse

namespace GoalPulse

theorem dueDateLE_trans (a b c : Option String) (hab : dueDateLE a b = true)
    (hbc : dueDateLE b c = true) : dueDateLE a c = true := by
  cases a with
  | none => rfl
  | some x =>
    cases b with
    | none => simp [dueDateLE] at hab
    | some y =>
      cases c with
      | none => simp [dueDateLE] at hbc
      | some z =>
        simp only [dueDateLE, decide_eq_true_eq] at hab hbc ⊢
        exact le_trans hab hbc

theorem dueDateLE_total (a b : Option String) :
    dueDateLE a b = true ∨ dueDateLE b a = true := by
  cases a with
  | none => exact Or.inl rfl
  | some x =>
    cases b with
    | none => exact Or.inr rfl
    | some y =>
      simp only [dueDateLE, decide_eq_true_eq]
      exact le_total x y

theorem taskLE_trans (a b c : Task) (hab : taskLE a b = true)
    (hbc : taskLE b c = true) : taskLE a c = true := by
  unfold taskLE at hab hbc ⊢
  by_cases h1 : a.priority = b.priority <;>
    by_cases h2 : b.priority = c.priority
  · rw [if_pos h1] at hab
    rw [if_pos h2] at hbc
    rw [if_pos (h1.trans h2)]
    exact dueDateLE_trans _ _ _ hab hbc
  · rw [if_neg h2] at hbc
    rw [if_neg (show ¬ a.priority = c.priority from by rw [h1]; exact h2)]
    simp only [decide_eq_true_eq] at hbc ⊢
    rw [h1]
    exact hbc
  · rw [if_neg h1] at hab
    rw [if_neg (show ¬ a.priority = c.priority from by rw [← h2]; exact h1)]
    simp only [decide_eq_true_eq] at hab ⊢
    rw [← h2]
    exact hab
  · rw [if_neg h1] at hab
    rw [if_neg h2] at hbc
    simp only [decide_eq_true_eq] at hab hbc
    have hlt : c.priority < a.priority := lt_trans hbc hab
    rw [if_neg (show ¬ a.priority = c.priority from by
      intro he
      rw [he] at hlt
      exact lt_irrefl _ hlt)]
    simp only [decide_eq_true_eq]
    exact hlt

theorem taskLE_total (a b : Task) : (taskLE a b || taskLE b a) = true := by
  rw [Bool.or_eq_true]
  unfold taskLE
  by_cases h : a.priority = b.priority
  · rw [if_pos h, if_pos h.symm]
    exact dueDateLE_total a.due_date b.due_date
  · rw [if_neg h, if_neg (Ne.symm h)]
    simp only [decide_eq_true_eq]
    rcases lt_or_gt_of_ne h with hlt | hlt
    · exact Or.inr hlt
    · exact Or.inl hlt

/-- C5: list_pending_ordered returns exactly the tasks whose status is
pending (it never filters on due_date or the calendar date), sorted by
priority descending and, within equal priority, by due_date ascending with
NULL due dates first (the fixed NULLS-FIRST tie-break of SQLite); the order is
deterministic and stable: equal-key tasks keep their rowid order. -/
theorem C5_list_pending_ordered (s : Store) :
    (get_today_tasks s).Perm
      (s.tasks.filter fun t => t.status == "pending") ∧
    (∀ t : Task, t ∈ get_today_tasks s ↔
      t ∈ s.tasks ∧ t.status = "pending") ∧
    (get_today_tasks s).Pairwise (fun a b =>
      b.priority < a.priority ∨
        (a.priority = b.priority ∧ dueDateLE a.due_date b.due_date = true)) ∧
    (∀ a b : Task, taskLE a b = true →
      [a, b].Sublist (s.tasks.filter fun t => t.status == "pending") →
      [a, b].Sublist (get_today_tasks s)) := by
  refine ⟨?_, ?_, ?_, ?_⟩
  · exact List.mergeSort_perm _ _
  · intro t
    rw [get_today_tasks, List.mem_mergeSort, List.mem_filter, beq_iff_eq]
  · have hp := List.sorted_mergeSort
      (fun a b c hab hbc => taskLE_trans a b c hab hbc)
      (fun a b => taskLE_total a b)
      (s.tasks.filter fun t => t.status == "pending")
    refine List.Pairwise.imp ?_ hp
    intro a b hab
    unfold taskLE at hab
    by_cases h : a.priority = b.priority
    · rw [if_pos h] at hab
      exact Or.inr ⟨h, hab⟩
    · rw [if_neg h] at hab
      simp only [decide_eq_true_eq] at hab
      exact Or.inl hab
  · intro a b hab hsub
    exact List.pair_sublist_mergeSort
      (fun a b c hab hbc => taskLE_trans a b c hab hbc)
      (fun a b => taskLE_total a b) hab hsub

end GoalPulse
